import Mathlib

/-!
Shallow embedding of the MiniSQL-CPP command parsing and table-mutation
engine (files `string_utils.cpp`, `parser_utils.cpp`, `csv_utils.cpp`).
Strings are modelled as lists of characters, tables as lists of rows of
string cells.  Out-of-range element accesses that are undefined behavior
in the C++ source are modelled explicitly: reads use `getD` defaults where
the surrounding checks make them in bounds, and the one genuinely
unchecked access (`rows[0]` in the DELETE confirmation branch) is given
its own explicit outcome constructor.
-/

namespace MiniSQL

abbrev Str := List Char
abbrev Row := List Str
abbrev Table := List Row

def str (s : String) : Str := s.data

def squote : Char := Char.ofNat 39

def dquote : Char := Char.ofNat 34

-- ---------- string_utils.cpp (namespace su) ----------

def isWSChar (c : Char) : Bool :=
  c == ' ' || c == '\t' || c == '\n' || c == '\r'

/-- `su::trim`: removes leading and trailing whitespace. -/
def trim (s : Str) : Str :=
  ((s.dropWhile isWSChar).reverse.dropWhile isWSChar).reverse

/-- `su::stripTrailingSemicolon`: trims, pops one trailing semicolon, trims. -/
def stripTrailingSemicolon (s : Str) : Str :=
  let o := trim s
  match o.getLast? with
  | some ';' => trim o.dropLast
  | _ => trim o

/-- ASCII upper-casing as done by `std::toupper` on the source's inputs. -/
def toUpperChar (c : Char) : Char :=
  if 'a' ≤ c ∧ c ≤ 'z' then Char.ofNat (c.toNat - 32) else c

/-- `su::startsWithNoCase`. -/
def startsWithNoCase : Str → Str → Bool
  | _, [] => true
  | [], _ :: _ => false
  | a :: as, b :: bs => (toUpperChar a == toUpperChar b) && startsWithNoCase as bs

def findNoCaseFrom : Str → Str → Nat → Option Nat
  | [], _, _ => none
  | c :: rest, needle, i =>
    if startsWithNoCase (c :: rest) needle then some i
    else findNoCaseFrom rest needle (i + 1)

/-- `su::findNoCase`: first case-insensitive occurrence of `needle`. -/
def findNoCase (hay needle : Str) : Option Nat :=
  if needle = [] then some 0 else findNoCaseFrom hay needle 0

/-- `su::cleanLiteral`: trim, strip semicolon, strip one matching quote pair, trim. -/
def cleanLiteral (raw : Str) : Str :=
  let t := stripTrailingSemicolon (trim raw)
  if 2 ≤ t.length ∧
      ((t.headD ' ' = dquote ∧ t.getLastD ' ' = dquote) ∨
       (t.headD ' ' = squote ∧ t.getLastD ' ' = squote)) then
    trim t.tail.dropLast
  else trim t

-- ---------- parser_utils.cpp (namespace pu) ----------

def isSepChar (c : Char) : Bool :=
  c == ' ' || c == '\t' || c == '\n' || c == '\r' ||
  c == '(' || c == ')' || c == ',' || c == ';'

/-- `pu::extractTableNameAfter`. -/
def extractTableNameAfter (cmd keyword : Str) : Str :=
  match (if keyword = [] then some 0 else findNoCase cmd keyword) with
  | none => []
  | some pos =>
    let rest := trim (cmd.drop (pos + keyword.length))
    match rest.findIdx? isSepChar with
    | none => stripTrailingSemicolon rest
    | some e => stripTrailingSemicolon (rest.take e)

/-- The quote-aware comma-splitting loop shared by `pu::parseParenList` and
`pu::splitCSVOutsideQuotes`: returns the raw tokens emitted at top-level
commas together with the raw token still accumulated when the input ends. -/
def splitQuoteAware : Str → Bool → Bool → Str → (List Str × Str)
  | [], _, _, token => ([], token)
  | c :: rest, inS, inD, token =>
    if c = dquote ∧ ¬ inS then splitQuoteAware rest inS (! inD) (token ++ [c])
    else if c = squote ∧ ¬ inD then splitQuoteAware rest (! inS) inD (token ++ [c])
    else if c = ',' ∧ ¬ inS ∧ ¬ inD then
      let r := splitQuoteAware rest inS inD []
      (token :: r.1, r.2)
    else splitQuoteAware rest inS inD (token ++ [c])

/-- The content scanned by `pu::parseParenList`: trimmed input with one
optional pair of enclosing parentheses stripped. -/
def parenContent (s : Str) : Str :=
  let w := trim s
  if w ≠ [] ∧ w.headD ' ' = '(' ∧ w.getLastD ' ' = ')' then w.tail.dropLast else w

/-- `pu::parseParenList`: the final accumulated token is pushed only when it
is non-empty or the whole content is empty. -/
def parseParenList (s : Str) : List Str :=
  let work := parenContent s
  let r := splitQuoteAware work false false []
  if r.2 ≠ [] ∨ work = [] then r.1.map cleanLiteral ++ [cleanLiteral r.2]
  else r.1.map cleanLiteral

/-- `pu::splitCSVOutsideQuotes`: same split, `trim` on tokens, no paren
stripping, final token pushed only when non-empty. -/
def splitCSVOutsideQuotes (s : Str) : List Str :=
  let r := splitQuoteAware s false false []
  if r.2 ≠ [] then r.1.map trim ++ [trim r.2] else r.1.map trim

/-- The scan for the first `=` outside both quote states, used by
`pu::parseWhereEquals` and `pu::parseAssignments`. -/
def findEqOutsideQuotes : Str → Bool → Bool → Nat → Option Nat
  | [], _, _, _ => none
  | c :: rest, inS, inD, i =>
    if c = dquote ∧ ¬ inS then findEqOutsideQuotes rest inS (! inD) (i + 1)
    else if c = squote ∧ ¬ inD then findEqOutsideQuotes rest (! inS) inD (i + 1)
    else if c = '=' ∧ ¬ inS ∧ ¬ inD then some i
    else findEqOutsideQuotes rest inS inD (i + 1)

/-- `pu::parseWhereEquals`: returns the empty predicate both when `WHERE` is
absent and when no unquoted `=` follows it. -/
def parseWhereEquals (cmd : Str) : Str × Str :=
  match findNoCase cmd (str "WHERE") with
  | none => ([], [])
  | some wherePos =>
    let wherePart := stripTrailingSemicolon (trim (cmd.drop (wherePos + 5)))
    match findEqOutsideQuotes wherePart false false 0 with
    | none => ([], [])
    | some eq =>
      (trim (wherePart.take eq), cleanLiteral (wherePart.drop (eq + 1)))

/-- Overwrite-insert into an association list, modelling assignment into the
source's `unordered_map` (later duplicate keys overwrite earlier ones). -/
def insertAssign (m : List (Str × Str)) (k v : Str) : List (Str × Str) :=
  m.filter (fun p => ! (p.1 == k)) ++ [(k, v)]

/-- `pu::parseAssignments`: pieces without an unquoted `=`, and pieces with an
empty key, are silently skipped. -/
def parseAssignments (setPartRaw : Str) : List (Str × Str) :=
  let afterSet :=
    match findNoCase setPartRaw (str "SET") with
    | some p => setPartRaw.drop (p + 3)
    | none => setPartRaw
  let setPart := stripTrailingSemicolon (trim afterSet)
  (splitCSVOutsideQuotes setPart).foldl
    (fun acc piece =>
      match findEqOutsideQuotes piece false false 0 with
      | none => acc
      | some eq =>
        let key := trim (piece.take eq)
        let v := cleanLiteral (piece.drop (eq + 1))
        if key = [] then acc else insertAssign acc key v)
    []

-- ---------- csv_utils.cpp (class MiniSQL) ----------

/-- `std::string::find(ch, start)`. -/
def findCharFrom (l : Str) (ch : Char) (start : Nat) : Option Nat :=
  match (l.drop start).findIdx? (fun c => c == ch) with
  | none => none
  | some i => some (start + i)

/-- `l.substr(a, b - a)`.  In the source both bounds are `size_t`; when
`b < a` the subtraction wraps around and the substring extends to the end
of the string. -/
def substrFromTo (l : Str) (a b : Nat) : Str :=
  if a ≤ b then (l.drop a).take (b - a) else l.drop a

/-- Index of the first header cell equal to `x`: the linear scan with break
used by `deleteFromTable` and the ALTER DROP branch. -/
def firstIdxOf (x : Str) : List Str → Option Nat
  | [] => none
  | y :: ys => if y = x then some 0 else (firstIdxOf x ys).map (· + 1)

/-- Index stored for `x` in the `unordered_map` column index built by
`updateTable` and `selectTable`: the loop `idx[header[i]] = i` leaves the
last occurrence for duplicate names. -/
def lastIdxOf (x : Str) : List Str → Option Nat
  | [] => none
  | y :: ys =>
    match lastIdxOf x ys with
    | some i => some (i + 1)
    | none => if y = x then some 0 else none

inductive CreateResult
  | errNoTableKw
  | errNoOpenParen
  | errNoCloseParen
  | errNoName
  | errNoColumns
  | errExists
  | created (name : Str) (rows : Table)
deriving DecidableEq

/-- `MiniSQL::createTable`.  `alreadyExists` is the result of the
`fs::exists` check for the target storage unit; on success the returned
rows are handed to `saveTable`. -/
def createTable (cmdRaw : Str) (alreadyExists : Bool) : CreateResult :=
  let cmd := stripTrailingSemicolon cmdRaw
  match findNoCase cmd (str "TABLE") with
  | none => .errNoTableKw
  | some tableKW =>
    match findCharFrom cmd '(' tableKW with
    | none => .errNoOpenParen
    | some openP =>
      match findCharFrom cmd ')' (openP + 1) with
      | none => .errNoCloseParen
      | some closeP =>
        let between := trim (substrFromTo cmd (tableKW + 5) openP)
        let tableName := extractTableNameAfter (str "TABLE " ++ between) (str "TABLE")
        if tableName = [] then .errNoName
        else
          let cols := parseParenList (substrFromTo cmd openP (closeP + 1))
          if cols = [] then .errNoColumns
          else if alreadyExists then .errExists
          else .created tableName [cols]

inductive InsertResult
  | errNoName
  | errNoValues
  | errNotFound
  | errMismatch (expected got : Nat)
  | inserted (rows : Table)
deriving DecidableEq

/-- `MiniSQL::insertIntoTable`.  `rows` is what `loadTable` returned for the
named table; an empty list means "not found or empty". -/
def insertIntoTable (cmdRaw : Str) (rows : Table) : InsertResult :=
  let cmd := stripTrailingSemicolon cmdRaw
  if extractTableNameAfter cmd (str "INTO") = [] then .errNoName
  else
    match findNoCase cmd (str "VALUES") with
    | none => .errNoValues
    | some valPos =>
      let values := parseParenList (trim (cmd.drop (valPos + 6)))
      match rows with
      | [] => .errNotFound
      | header :: tl =>
        if values.length ≠ header.length then .errMismatch header.length values.length
        else .inserted (header :: (tl ++ [values]))

/-- The `SET` clause text passed to `parseAssignments` by
`MiniSQL::updateTable`: the text from `SET` up to `WHERE` (if any). -/
def setPartOf (cmd : Str) (setPos : Nat) : Str :=
  let setAndRest := trim (cmd.drop setPos)
  match findNoCase setAndRest (str "WHERE") with
  | none => setAndRest
  | some w => trim (setAndRest.take w)

/-- One row after `updateTable`'s assignment loop
`rows[r][idx[kv.first]] = kv.second`.  The `none` case cannot occur on the
engine's path because every key was checked against the index first. -/
def applyAssignsRow (assigns : List (Str × Str)) (header : Row) (row : Row) : Row :=
  assigns.foldl
    (fun r kv =>
      match lastIdxOf kv.1 header with
      | some i => r.set i kv.2
      | none => r)
    row

inductive UpdateResult
  | errNoName
  | errNoSet
  | errNotFound
  | errUnknownSet
  | errUnknownWhere
  | updated (count : Nat) (rows : Table)
deriving DecidableEq

/-- `MiniSQL::updateTable`. -/
def updateTable (cmdRaw : Str) (rows : Table) : UpdateResult :=
  let cmd := stripTrailingSemicolon cmdRaw
  if extractTableNameAfter cmd (str "UPDATE") = [] then .errNoName
  else
    match findNoCase cmd (str "SET") with
    | none => .errNoSet
    | some setPos =>
      let assigns := parseAssignments (setPartOf cmd setPos)
      let wkv := parseWhereEquals cmd
      match rows with
      | [] => .errNotFound
      | header :: data =>
        if assigns.all (fun kv => (lastIdxOf kv.1 header).isSome) then
          if wkv.1 = [] then
            .updated data.length (header :: data.map (applyAssignsRow assigns header))
          else
            match lastIdxOf wkv.1 header with
            | none => .errUnknownWhere
            | some wi =>
              .updated (data.countP (fun r => r.getD wi [] == wkv.2))
                (header :: data.map (fun r =>
                  if r.getD wi [] == wkv.2 then applyAssignsRow assigns header r else r))
        else .errUnknownSet

inductive DeleteResult
  | errNoName
  | oobEmptyTable
  | deletedAll (rows : Table)
  | cancelled
  | errNotFound
  | errUnknownWhere
  | deleted (count : Nat) (rows : Table)
deriving DecidableEq

/-- `MiniSQL::deleteFromTable`.  `confirm` is the interactive Y/N answer.
In the source the no-WHERE branch runs before the `rows.empty()` check and
reads `rows[0]` unconditionally on confirmation; for an absent table that
access is out of bounds, modelled as `oobEmptyTable`. -/
def deleteFromTable (cmdRaw : Str) (rows : Table) (confirm : Bool) : DeleteResult :=
  let cmd := stripTrailingSemicolon cmdRaw
  if extractTableNameAfter cmd (str "FROM") = [] then .errNoName
  else
    let wkv := parseWhereEquals cmd
    if wkv.1 = [] then
      if confirm then
        match rows with
        | [] => .oobEmptyTable
        | header :: _ => .deletedAll [header]
      else .cancelled
    else
      match rows with
      | [] => .errNotFound
      | header :: data =>
        match firstIdxOf wkv.1 header with
        | none => .errUnknownWhere
        | some ci =>
          .deleted (data.countP (fun r => r.getD ci [] == wkv.2))
            (header :: data.filter (fun r => ! (r.getD ci [] == wkv.2)))

inductive AlterResult
  | errNoName
  | errNotFound
  | errBoth
  | errNeither
  | errNoColName
  | errAddExists
  | errDropUnknown
  | altered (rows : Table)
deriving DecidableEq

/-- The ADD branch of `MiniSQL::alterTable`: append the new name to the
header and an empty cell to every data row. -/
def alterAdd (newCol : Str) (header : Row) (data : Table) : AlterResult :=
  if newCol = [] then .errNoColName
  else if newCol ∈ header then .errAddExists
  else .altered ((header ++ [newCol]) :: data.map (fun r => r ++ [[]]))

/-- The DROP branch of `MiniSQL::alterTable`: erase the cell at the matched
header position from every row long enough to have one. -/
def alterDrop (dropCol : Str) (header : Row) (data : Table) : AlterResult :=
  if dropCol = [] then .errNoColName
  else
    match firstIdxOf dropCol header with
    | none => .errDropUnknown
    | some ci =>
      .altered ((header :: data).map (fun r =>
        if ci < r.length then r.eraseIdx ci else r))

/-- `MiniSQL::alterTable`: ADD and DROP are located by case-insensitive
substring search over the whole statement. -/
def alterTable (cmdRaw : Str) (rows : Table) : AlterResult :=
  let cmd := stripTrailingSemicolon cmdRaw
  if extractTableNameAfter cmd (str "TABLE") = [] then .errNoName
  else
    match rows with
    | [] => .errNotFound
    | header :: data =>
      match findNoCase cmd (str "ADD"), findNoCase cmd (str "DROP") with
      | some _, some _ => .errBoth
      | none, none => .errNeither
      | some addPos, none =>
        alterAdd (stripTrailingSemicolon (trim (cmd.drop (addPos + 3)))) header data
      | none, some dropPos =>
        alterDrop (stripTrailingSemicolon (trim (cmd.drop (dropPos + 4)))) header data

/-- The projection clause text of `MiniSQL::selectTable`:
`trim(cmd.substr(selectPos + 6, fromPos - (selectPos + 6)))`. -/
def selectPartOf (cmd : Str) (sp fp : Nat) : Str :=
  trim (substrFromTo cmd (sp + 6) fp)

/-- The projected column list of `MiniSQL::selectTable`: the full header for
`*`, otherwise the re-parenthesised projection list. -/
def selectColsOf (cmd : Str) (sp fp : Nat) (headers : Row) : List Str :=
  if trim (selectPartOf cmd sp fp) = ['*'] then headers
  else parseParenList ('(' :: (selectPartOf cmd sp fp ++ [')']))

/-- One projected output row: `row[colIndex[c]]` for each requested column. -/
def projectRow (headers : Row) (selectCols : List Str) (row : Row) : Row :=
  selectCols.map (fun c => row.getD ((lastIdxOf c headers).getD 0) [])

/-- The row loop of `MiniSQL::selectTable`: rows of the wrong arity are
skipped before anything else; the unknown-WHERE-column check happens inside
the loop, so it only ever fires on a row of the right arity (`none` models
the abort). -/
def selectRowsGo (headers : Row) (selectCols : List Str) (wcol wval : Str) :
    Table → Option Table
  | [] => some []
  | row :: rest =>
    if row.length ≠ headers.length then
      selectRowsGo headers selectCols wcol wval rest
    else if wcol ≠ [] then
      match lastIdxOf wcol headers with
      | none => none
      | some wi =>
        if ¬ (row.getD wi [] = wval) then
          selectRowsGo headers selectCols wcol wval rest
        else
          (selectRowsGo headers selectCols wcol wval rest).map
            (fun rs => projectRow headers selectCols row :: rs)
    else
      (selectRowsGo headers selectCols wcol wval rest).map
        (fun rs => projectRow headers selectCols row :: rs)

inductive SelectResult
  | errMalformed
  | errNoName
  | errNotFound
  | errUnknownCol
  | errUnknownWhere
  | output (printable : Table)
deriving DecidableEq

/-- `MiniSQL::selectTable`: on success `output` is the `printable` table
(projection header plus projected, filtered rows) handed to the renderer. -/
def selectTable (cmdRaw : Str) (rows : Table) : SelectResult :=
  let cmd := stripTrailingSemicolon cmdRaw
  match findNoCase cmd (str "SELECT") with
  | none => .errMalformed
  | some sp =>
    match findNoCase cmd (str "FROM") with
    | none => .errMalformed
    | some fp =>
      if extractTableNameAfter (trim (cmd.drop (fp + 4))) [] = [] then .errNoName
      else
        match rows with
        | [] => .errNotFound
        | headers :: data =>
          let wkv := parseWhereEquals cmd
          let selectCols := selectColsOf cmd sp fp headers
          if selectCols.all (fun c => (lastIdxOf c headers).isSome) then
            match selectRowsGo headers selectCols wkv.1 wkv.2 data with
            | none => .errUnknownWhere
            | some rs => .output (selectCols :: rs)
          else .errUnknownCol

/-- The engine invariant: every data row has as many cells as the header. -/
def uniform : Table → Prop
  | [] => True
  | header :: data => ∀ r ∈ data, r.length = header.length

instance instDecidableUniform : (t : Table) → Decidable (uniform t)
  | [] => .isTrue trivial
  | header :: data =>
    decidable_of_iff (∀ r ∈ data, r.length = header.length) Iff.rfl

-- ---------- helper lemmas ----------

theorem length_applyAssignsRow (assigns : List (Str × Str)) (header : Row) (row : Row) :
    (applyAssignsRow assigns header row).length = row.length := by
  induction assigns generalizing row with
  | nil => rfl
  | cons kv tl ih =>
    have step : applyAssignsRow (kv :: tl) header row =
        applyAssignsRow tl header
          (match lastIdxOf kv.1 header with
           | some i => row.set i kv.2
           | none => row) := rfl
    rw [step, ih]
    cases lastIdxOf kv.1 header <;> simp

theorem eraseIdx_append_length {α : Type} (l : List α) (x : α) :
    (l ++ [x]).eraseIdx l.length = l := by
  induction l with
  | nil => rfl
  | cons a tl ih => simp [List.eraseIdx_cons_succ, ih]

theorem firstIdxOf_lt (x : Str) (l : List Str) (i : Nat)
    (h : firstIdxOf x l = some i) : i < l.length := by
  induction l generalizing i with
  | nil => simp [firstIdxOf] at h
  | cons y ys ih =>
    by_cases hy : y = x
    · simp [firstIdxOf, hy] at h
      simp only [List.length_cons]
      omega
    · simp only [firstIdxOf, hy, if_false] at h
      obtain ⟨j, hj, hji⟩ := Option.map_eq_some'.mp h
      have := ih j hj
      simp only [List.length_cons]
      omega

theorem selectRowsGo_filter_arity (headers : Row) (selectCols : List Str)
    (wcol wval : Str) (data : Table) :
    selectRowsGo headers selectCols wcol wval data =
    selectRowsGo headers selectCols wcol wval
      (data.filter (fun r => decide (r.length = headers.length))) := by
  induction data with
  | nil => rfl
  | cons row rest ih =>
    rw [List.filter_cons]
    by_cases hl : row.length = headers.length
    · rw [if_pos (by simp [hl])]
      simp only [selectRowsGo]
      rw [ih]
    · rw [if_neg (by simp [hl])]
      simp only [selectRowsGo]
      rw [if_pos hl]
      exact ih

theorem selectRowsGo_none_of_wellformed_mem (headers : Row) (selectCols : List Str)
    (wcol wval : Str) (data : Table) (hw : wcol ≠ [])
    (hnone : lastIdxOf wcol headers = none)
    (r : Row) (hr : r ∈ data) (hlen : r.length = headers.length) :
    selectRowsGo headers selectCols wcol wval data = none := by
  induction data with
  | nil => cases hr
  | cons row rest ih =>
    simp only [selectRowsGo]
    by_cases hl : row.length = headers.length
    · rw [if_neg (by simp [hl]), if_pos hw, hnone]
    · rw [if_pos hl]
      rcases List.mem_cons.mp hr with rfl | hmem
      · exact absurd hlen hl
      · exact ih hmem

theorem selectRowsGo_empty_of_all_malformed (headers : Row) (selectCols : List Str)
    (wcol wval : Str) (data : Table)
    (hall : ∀ r ∈ data, r.length ≠ headers.length) :
    selectRowsGo headers selectCols wcol wval data = some [] := by
  induction data with
  | nil => rfl
  | cons row rest ih =>
    simp only [selectRowsGo]
    rw [if_pos (hall row (by simp))]
    exact ih (fun r hr => hall r (by simp [hr]))

theorem firstIdxOf_append_self (x : Str) (l : List Str) (hx : x ∉ l) :
    firstIdxOf x (l ++ [x]) = some l.length := by
  induction l with
  | nil => simp [firstIdxOf]
  | cons y ys ih =>
    have hy : ¬ y = x := by
      intro h
      exact hx (by simp [h])
    have hys : x ∉ ys := fun h => hx (List.mem_cons_of_mem _ h)
    simp [firstIdxOf, hy, ih hys]

theorem uniform_createTable (cmd : Str) (ex : Bool) (nm : Str) (rows' : Table)
    (h : createTable cmd ex = .created nm rows') : uniform rows' := by
  simp only [createTable] at h
  repeat' split at h
  all_goals simp at h
  obtain ⟨-, h2⟩ := h
  subst h2
  simp [uniform]

theorem uniform_insertIntoTable (cmd : Str) (rows rows' : Table) (hu : uniform rows)
    (h : insertIntoTable cmd rows = .inserted rows') : uniform rows' := by
  simp only [insertIntoTable] at h
  split at h
  · simp at h
  · split at h
    · simp at h
    · split at h
      · simp at h
      · rename_i header tl
        split at h
        · simp at h
        · rename_i hlen
          simp only [InsertResult.inserted.injEq] at h
          subst h
          intro r hr
          rcases List.mem_append.mp hr with hmem | hmem
          · exact hu r hmem
          · rw [List.mem_singleton.mp hmem]
            exact not_not.mp hlen

theorem uniform_updateTable (cmd : Str) (rows rows' : Table) (n : Nat) (hu : uniform rows)
    (h : updateTable cmd rows = .updated n rows') : uniform rows' := by
  simp only [updateTable] at h
  split at h
  · simp at h
  · split at h
    · simp at h
    · split at h
      · simp at h
      · rename_i header data
        split at h
        · split at h
          · simp only [UpdateResult.updated.injEq] at h
            obtain ⟨-, h2⟩ := h
            subst h2
            intro r hr
            obtain ⟨s, hs, rfl⟩ := List.mem_map.mp hr
            rw [length_applyAssignsRow]
            exact hu s hs
          · split at h
            · simp at h
            · simp only [UpdateResult.updated.injEq] at h
              obtain ⟨-, h2⟩ := h
              subst h2
              intro r hr
              obtain ⟨s, hs, rfl⟩ := List.mem_map.mp hr
              split
              · rw [length_applyAssignsRow]
                exact hu s hs
              · exact hu s hs
        · simp at h

theorem uniform_deleteFromTable_all (cmd : Str) (rows rows' : Table) (confirm : Bool)
    (h : deleteFromTable cmd rows confirm = .deletedAll rows') : uniform rows' := by
  simp only [deleteFromTable] at h
  repeat' split at h
  all_goals simp at h
  subst h
  simp [uniform]

theorem uniform_deleteFromTable_where (cmd : Str) (rows rows' : Table) (n : Nat)
    (confirm : Bool) (hu : uniform rows)
    (h : deleteFromTable cmd rows confirm = .deleted n rows') : uniform rows' := by
  simp only [deleteFromTable] at h
  split at h
  · simp at h
  · split at h
    · split at h
      · split at h <;> simp at h
      · simp at h
    · split at h
      · simp at h
      · rename_i header data
        split at h
        · simp at h
        · simp only [DeleteResult.deleted.injEq] at h
          obtain ⟨-, h2⟩ := h
          subst h2
          intro r hr
          exact hu r (List.mem_of_mem_filter hr)

theorem uniform_alterAdd (c : Str) (header : Row) (data rows' : Table)
    (hu : uniform (header :: data)) (h : alterAdd c header data = .altered rows') :
    uniform rows' := by
  simp only [alterAdd] at h
  split at h
  · simp at h
  · split at h
    · simp at h
    · simp only [AlterResult.altered.injEq] at h
      subst h
      intro r hr
      obtain ⟨s, hs, rfl⟩ := List.mem_map.mp hr
      simp [hu s hs]

theorem uniform_alterDrop (c : Str) (header : Row) (data rows' : Table)
    (hu : uniform (header :: data)) (h : alterDrop c header data = .altered rows') :
    uniform rows' := by
  simp only [alterDrop] at h
  split at h
  · simp at h
  · split at h
    · simp at h
    · rename_i ci hci
      simp only [AlterResult.altered.injEq, List.map_cons] at h
      subst h
      have hlt : ci < header.length := firstIdxOf_lt c header ci hci
      intro r hr
      obtain ⟨s, hs, rfl⟩ := List.mem_map.mp hr
      have hslen : s.length = header.length := hu s hs
      rw [if_pos hlt, if_pos (show ci < s.length by omega)]
      have h1 := List.length_eraseIdx_add_one hlt
      have h2 := List.length_eraseIdx_add_one (show ci < s.length by omega)
      omega

theorem uniform_alterTable (cmd : Str) (rows rows' : Table) (hu : uniform rows)
    (h : alterTable cmd rows = .altered rows') : uniform rows' := by
  simp only [alterTable] at h
  split at h
  · simp at h
  · split at h
    · simp at h
    · rename_i header data
      split at h
      · simp at h
      · simp at h
      · exact uniform_alterAdd _ _ _ _ hu h
      · exact uniform_alterDrop _ _ _ _ hu h

end MiniSQL

namespace MiniSQL

-- ---------- claim theorems ----------

/-- Claim C1 (counter-evidence): when a WHERE clause contains no unquoted
equals sign the engine does not abort: UPDATE applies the assignments to
every data row (one row modified here) and DELETE enters the delete-all
confirmation branch (the data row is removed on confirmation). -/
theorem claim1_bug_where_without_equals :
    updateTable (str "UPDATE t SET a=1 WHERE b")
        [[str "a", str "b"], [str "x", str "y"]] =
      .updated 1 [[str "a", str "b"], [str "1", str "y"]] ∧
    deleteFromTable (str "DELETE FROM t WHERE b")
        [[str "a", str "b"], [str "x", str "y"]] true =
      .deletedAll [[str "a", str "b"]] := by
  constructor <;> decide

/-- Claim C1 (amended): if the statement contains WHERE but
`parseWhereEquals` returns the empty predicate (no unquoted equals sign),
the engine treats it exactly like an absent WHERE clause: UPDATE applies
its assignments to every data row, and DELETE enters the delete-all
confirmation branch (header-only table on confirmation, no-op on
refusal); no syntax error is reported. -/
theorem claim1_amended_empty_predicate_matches_all
    (ucmd dcmd : Str) (header : Row) (data : Table) (sp : Nat) :
    (findNoCase (stripTrailingSemicolon ucmd) (str "WHERE") ≠ none →
     parseWhereEquals (stripTrailingSemicolon ucmd) = ([], []) →
     extractTableNameAfter (stripTrailingSemicolon ucmd) (str "UPDATE") ≠ [] →
     findNoCase (stripTrailingSemicolon ucmd) (str "SET") = some sp →
     (parseAssignments (setPartOf (stripTrailingSemicolon ucmd) sp)).all
       (fun kv => (lastIdxOf kv.1 header).isSome) = true →
     updateTable ucmd (header :: data) =
       .updated data.length
         (header :: data.map
           (applyAssignsRow
             (parseAssignments (setPartOf (stripTrailingSemicolon ucmd) sp)) header))) ∧
    (findNoCase (stripTrailingSemicolon dcmd) (str "WHERE") ≠ none →
     parseWhereEquals (stripTrailingSemicolon dcmd) = ([], []) →
     extractTableNameAfter (stripTrailingSemicolon dcmd) (str "FROM") ≠ [] →
     deleteFromTable dcmd (header :: data) true = .deletedAll [header] ∧
     deleteFromTable dcmd (header :: data) false = .cancelled) := by
  constructor
  · intro _ hkv hname hset hall
    unfold updateTable
    simp only [hname, if_false, hset, hkv, hall]
    simp
  · intro _ hkv hname
    unfold deleteFromTable
    simp only [hname, if_false, hkv]
    simp

/-- Claim C1 (witness for the amended theorem at a concrete input). -/
theorem claim1_amended_witness :
    updateTable (str "UPDATE t SET a=1 WHERE b")
        [[str "a", str "b"], [str "x", str "y"], [str "p", str "q"]] =
      .updated 2 [[str "a", str "b"], [str "1", str "y"], [str "1", str "q"]] ∧
    deleteFromTable (str "DELETE FROM t WHERE b")
        [[str "a", str "b"], [str "x", str "y"], [str "p", str "q"]] true =
      .deletedAll [[str "a", str "b"]] ∧
    deleteFromTable (str "DELETE FROM t WHERE b")
        [[str "a", str "b"], [str "x", str "y"], [str "p", str "q"]] false =
      .cancelled := by
  have h := claim1_amended_empty_predicate_matches_all
    (str "UPDATE t SET a=1 WHERE b") (str "DELETE FROM t WHERE b")
    [str "a", str "b"] [[str "x", str "y"], [str "p", str "q"]] 9
  refine ⟨(h.1 (by decide) (by decide) (by decide) (by decide) (by decide)).trans (by decide), ?_, ?_⟩
  · exact (h.2 (by decide) (by decide) (by decide)).1
  · exact (h.2 (by decide) (by decide) (by decide)).2

/-- Claim C2: for a DELETE without WHERE naming an absent table (load
returns the empty row sequence), the source does not report a not-found
error: on confirmation it reads `rows[0]` of an empty vector (out of
bounds), and on refusal it just prints a cancellation message. -/
theorem claim2_delete_missing_table_oob :
    deleteFromTable (str "DELETE FROM ghost;") [] true = .oobEmptyTable ∧
    deleteFromTable (str "DELETE FROM ghost;") [] false = .cancelled := by
  constructor <;> decide

/-- Claim C3: `CREATE TABLE t ();` is not rejected: `parseParenList`
returns the one-element list containing the empty string, the
`cols.empty()` guard does not fire, and a table whose header is a single
empty-named column is created. -/
theorem claim3_create_empty_collist_creates :
    createTable (str "CREATE TABLE t ();") false = .created (str "t") [[[]]] := by
  decide

/-- Claim C5 (counter-evidence): `(a,b,)` parses to two tokens, not three:
the trailing empty token is dropped. -/
theorem claim5_counterexample :
    parseParenList (str "(a,b,)") ≠ [str "a", str "b", []] ∧
    (parseParenList (str "(a,b,)")).length = 2 := by
  constructor <;> decide

/-- Claim C5 (amended): the final accumulated token is emitted only when it
is non-empty or the whole stripped content is empty: whenever the content
is non-empty and the scan ends with an empty accumulated token (as after a
trailing top-level comma), only the comma-emitted tokens are returned, so
`(a,b,)` yields exactly `a`, `b`; a genuinely empty input `()` still
yields exactly one empty-string token. -/
theorem claim5_amended_trailing_token :
    (∀ s : Str, parenContent s ≠ [] →
       (splitQuoteAware (parenContent s) false false []).2 = [] →
       parseParenList s =
         ((splitQuoteAware (parenContent s) false false []).1).map cleanLiteral) ∧
    parseParenList (str "(a,b,)") = [str "a", str "b"] ∧
    parseParenList (str "()") = [[]] := by
  refine ⟨?_, by decide, by decide⟩
  intro s hne hfin
  unfold parseParenList
  simp only [hfin, hne]
  simp

/-- Claim C5 (witness for the amended theorem at a concrete input). -/
theorem claim5_amended_witness : parseParenList (str "(x,)") = [str "x"] := by
  have h := claim5_amended_trailing_token.1 (str "(x,)") (by decide) (by decide)
  exact h.trans (by decide)

/-- Claim C7: starting from a table in which every data row's cell count
equals the header's, every successful engine operation (CREATE, INSERT,
UPDATE, DELETE with or without WHERE, ALTER ADD, ALTER DROP) produces a
table in which every data row's cell count again equals the possibly
changed header's cell count. -/
theorem claim7_uniform_arity_preserved (cmd : Str) (rows rows' : Table)
    (confirm ex : Bool) (n : Nat) (nm : Str) (hu : uniform rows) :
    (createTable cmd ex = .created nm rows' → uniform rows') ∧
    (insertIntoTable cmd rows = .inserted rows' → uniform rows') ∧
    (updateTable cmd rows = .updated n rows' → uniform rows') ∧
    (deleteFromTable cmd rows confirm = .deletedAll rows' → uniform rows') ∧
    (deleteFromTable cmd rows confirm = .deleted n rows' → uniform rows') ∧
    (alterTable cmd rows = .altered rows' → uniform rows') :=
  ⟨uniform_createTable cmd ex nm rows',
   uniform_insertIntoTable cmd rows rows' hu,
   uniform_updateTable cmd rows rows' n hu,
   uniform_deleteFromTable_all cmd rows rows' confirm,
   uniform_deleteFromTable_where cmd rows rows' n confirm hu,
   uniform_alterTable cmd rows rows' hu⟩

/-- Claim C7 (witness: the uniformity hypothesis and the preserved
invariant at a concrete accepted INSERT). -/
theorem claim7_witness :
    uniform [[str "a"], [str "x"]] ∧ uniform [[str "a"], [str "x"], [str "v"]] :=
  ⟨by decide,
   (claim7_uniform_arity_preserved (str "INSERT INTO t VALUES (v)")
      [[str "a"], [str "x"]] [[str "a"], [str "x"], [str "v"]] true true 0 []
      (by decide)).2.1 (by decide)⟩

/-- Claim C8 (counter-evidence): on a table whose data row is shorter than
the header, ALTER ADD of a fresh column followed by ALTER DROP of the same
column does not restore the original table: the DROP branch skips rows too
short to hold the dropped position, leaving the appended empty cell. -/
theorem claim8_counterexample :
    alterTable (str "ALTER TABLE t ADD c") [[str "a", str "b"], [str "x"]] =
      .altered [[str "a", str "b", str "c"], [str "x", []]] ∧
    alterTable (str "ALTER TABLE t DROP c") [[str "a", str "b", str "c"], [str "x", []]] =
      .altered [[str "a", str "b"], [str "x", []]] ∧
    ([[str "a", str "b"], [str "x", []]] : Table) ≠ [[str "a", str "b"], [str "x"]] := by
  refine ⟨by decide, by decide, by decide⟩

/-- Claim C8 (amended): on a table satisfying the uniform-arity invariant,
the ADD branch with a non-empty column name not already in the header,
followed by the DROP branch with the same name, restores the original
header and all original cell values. -/
theorem claim8_amended_roundtrip (header : Row) (data : Table) (c : Str)
    (hc : c ≠ []) (hnot : c ∉ header) (hu : uniform (header :: data)) :
    alterAdd c header data =
      .altered ((header ++ [c]) :: data.map (fun r => r ++ [[]])) ∧
    alterDrop c (header ++ [c]) (data.map (fun r => r ++ [[]])) =
      .altered (header :: data) := by
  constructor
  · simp [alterAdd, hc, hnot]
  · unfold alterDrop
    rw [firstIdxOf_append_self c header hnot]
    simp only [hc, if_false]
    have hhead : (if header.length < (header ++ [c]).length then
        (header ++ [c]).eraseIdx header.length else header ++ [c]) = header := by
      simp [eraseIdx_append_length]
    have hdata : (data.map (fun r => r ++ [[]])).map
        (fun r => if header.length < r.length then r.eraseIdx header.length else r) = data := by
      rw [List.map_map]
      have : ∀ r ∈ data,
          ((fun r => if header.length < r.length then r.eraseIdx header.length else r) ∘
            (fun r => r ++ [[]])) r = id r := by
        intro r hr
        have hlen : r.length = header.length := hu r hr
        simp only [Function.comp_apply, id_eq]
        rw [if_pos (by simp [hlen])]
        rw [← hlen]
        exact eraseIdx_append_length r []
      rw [List.map_congr_left this, List.map_id]
    have hall : ((header ++ [c]) :: data.map (fun r => r ++ [[]])).map
        (fun r => if header.length < r.length then r.eraseIdx header.length else r) =
        header :: data := by
      rw [List.map_cons, hhead, hdata]
    rw [hall]

/-- Claim C4 (counter-evidence): a SELECT whose WHERE clause names a column
absent from the header is not aborted when the table has zero data rows:
the unknown-column check sits inside the row loop, so the statement
succeeds and hands the renderer a header-only table. -/
theorem claim4_counterexample :
    selectTable (str "SELECT a FROM t WHERE ghost=1") [[str "a"]] =
      .output [[str "a"]] := by
  decide

/-- Claim C4 (amended): for a SELECT statement whose WHERE clause names a
column not in the header (all projected columns valid), the engine aborts
with the unknown-column error exactly when the table has at least one data
row of the header's arity; when every data row is malformed (in
particular, when there are zero data rows) no error is reported and the
renderer receives the header row and zero projected rows. -/
theorem claim4_amended_where_check_needs_wellformed_row
    (cmd0 : Str) (headers : Row) (data : Table) (sp fp : Nat)
    (h1 : findNoCase (stripTrailingSemicolon cmd0) (str "SELECT") = some sp)
    (h2 : findNoCase (stripTrailingSemicolon cmd0) (str "FROM") = some fp)
    (h3 : extractTableNameAfter (trim ((stripTrailingSemicolon cmd0).drop (fp + 4))) [] ≠ [])
    (h4 : (parseWhereEquals (stripTrailingSemicolon cmd0)).1 ≠ [])
    (h5 : lastIdxOf (parseWhereEquals (stripTrailingSemicolon cmd0)).1 headers = none)
    (h6 : (selectColsOf (stripTrailingSemicolon cmd0) sp fp headers).all
        (fun c => (lastIdxOf c headers).isSome) = true) :
    ((∃ r ∈ data, r.length = headers.length) →
      selectTable cmd0 (headers :: data) = .errUnknownWhere) ∧
    ((∀ r ∈ data, r.length ≠ headers.length) →
      selectTable cmd0 (headers :: data) =
        .output [selectColsOf (stripTrailingSemicolon cmd0) sp fp headers]) := by
  constructor
  · rintro ⟨r, hr, hlen⟩
    unfold selectTable
    simp only [h1, h2, h3, if_false, h6, if_true]
    rw [selectRowsGo_none_of_wellformed_mem _ _ _ _ _ h4 h5 r hr hlen]
  · intro hall
    unfold selectTable
    simp only [h1, h2, h3, if_false, h6, if_true]
    rw [selectRowsGo_empty_of_all_malformed _ _ _ _ _ hall]

/-- Claim C4 (witness for the amended theorem at a concrete input). -/
theorem claim4_amended_witness :
    selectTable (str "SELECT a FROM t WHERE ghost=1") [[str "a"], [str "x"]] =
      .errUnknownWhere := by
  have h := (claim4_amended_where_check_needs_wellformed_row
    (str "SELECT a FROM t WHERE ghost=1") [str "a"] [[str "x"]] 0 9
    (by decide) (by decide) (by decide) (by decide) (by decide) (by decide)).1
  exact h ⟨[str "x"], by simp, by decide⟩

/-- Claim C6: for an existing table and an INSERT statement with a table
name and a VALUES keyword, the row is appended (row count grows by exactly
one) precisely when the parsed value-list length equals the header length;
otherwise the statement is rejected with a column-count mismatch and no
row is added. -/
theorem claim6_insert_arity_iff (cmd0 : Str) (header : Row) (tl : Table) (vp : Nat)
    (hname : extractTableNameAfter (stripTrailingSemicolon cmd0) (str "INTO") ≠ [])
    (hvals : findNoCase (stripTrailingSemicolon cmd0) (str "VALUES") = some vp) :
    ((parseParenList (trim ((stripTrailingSemicolon cmd0).drop (vp + 6)))).length =
        header.length →
      insertIntoTable cmd0 (header :: tl) =
        .inserted (header ::
          (tl ++ [parseParenList (trim ((stripTrailingSemicolon cmd0).drop (vp + 6)))])) ∧
      (header ::
          (tl ++ [parseParenList (trim ((stripTrailingSemicolon cmd0).drop (vp + 6)))])).length =
        (header :: tl).length + 1) ∧
    ((parseParenList (trim ((stripTrailingSemicolon cmd0).drop (vp + 6)))).length ≠
        header.length →
      insertIntoTable cmd0 (header :: tl) =
        .errMismatch header.length
          (parseParenList (trim ((stripTrailingSemicolon cmd0).drop (vp + 6)))).length) := by
  constructor
  · intro hlen
    refine ⟨?_, by simp⟩
    unfold insertIntoTable
    simp only [hname, if_false, hvals]
    rw [if_neg (fun h => h hlen)]
  · intro hlen
    unfold insertIntoTable
    simp only [hname, if_false, hvals]
    rw [if_pos hlen]

/-- Claim C6 (witness at a concrete accepted INSERT). -/
theorem claim6_witness :
    insertIntoTable (str "INSERT INTO t VALUES (v)") [[str "a"], [str "x"]] =
      .inserted [[str "a"], [str "x"], [str "v"]] ∧
    ([[str "a"], [str "x"], [str "v"]] : Table).length =
      ([[str "a"], [str "x"]] : Table).length + 1 := by
  have h := (claim6_insert_arity_iff (str "INSERT INTO t VALUES (v)")
    [str "a"] [[str "x"]] 14 (by decide) (by decide)).1 (by decide)
  exact ⟨h.1.trans (by decide), by decide⟩

/-- Claim C9: SELECT's result is unchanged by deleting every data row whose
cell count differs from the header's: such rows are never tested against
the WHERE predicate, never projected, never appear in the output, and
trigger no error. -/
theorem claim9_select_skips_malformed (cmd : Str) (headers : Row) (data : Table) :
    selectTable cmd (headers :: data) =
    selectTable cmd (headers :: data.filter (fun r => decide (r.length = headers.length))) := by
  simp only [selectTable]
  cases h1 : findNoCase (stripTrailingSemicolon cmd) (str "SELECT") with
  | none => rfl
  | some sp =>
    cases h2 : findNoCase (stripTrailingSemicolon cmd) (str "FROM") with
    | none => rfl
    | some fp =>
      by_cases h3 : extractTableNameAfter (trim ((stripTrailingSemicolon cmd).drop (fp + 4))) [] = []
      · simp only [h3, if_true]
      · simp only [h3, if_false]
        rw [← selectRowsGo_filter_arity]

/-- Claim C10: ALTER dispatches ADD versus DROP by case-insensitive
substring search over the whole statement: if both letter sequences occur
anywhere the statement is rejected with a syntax error and no mutation;
otherwise the branch taken is the one whose sequence occurs, with the
column name the trimmed text after that first occurrence. -/
theorem claim10_alter_substring_dispatch (cmd0 : Str) (header : Row) (data : Table)
    (a d : Nat)
    (hname : extractTableNameAfter (stripTrailingSemicolon cmd0) (str "TABLE") ≠ []) :
    (findNoCase (stripTrailingSemicolon cmd0) (str "ADD") = some a →
     findNoCase (stripTrailingSemicolon cmd0) (str "DROP") = some d →
     alterTable cmd0 (header :: data) = .errBoth) ∧
    (findNoCase (stripTrailingSemicolon cmd0) (str "ADD") = some a →
     findNoCase (stripTrailingSemicolon cmd0) (str "DROP") = none →
     alterTable cmd0 (header :: data) =
       alterAdd (stripTrailingSemicolon (trim ((stripTrailingSemicolon cmd0).drop (a + 3))))
         header data) ∧
    (findNoCase (stripTrailingSemicolon cmd0) (str "ADD") = none →
     findNoCase (stripTrailingSemicolon cmd0) (str "DROP") = some d →
     alterTable cmd0 (header :: data) =
       alterDrop (stripTrailingSemicolon (trim ((stripTrailingSemicolon cmd0).drop (d + 4))))
         header data) := by
  refine ⟨?_, ?_, ?_⟩ <;>
    intro ha hd <;>
    unfold alterTable <;>
    simp only [hname, if_false, ha, hd]

/-- Claim C10 (witness): `ALTER TABLE t DROP address` contains both `drop`
and the sequence `add` inside the column name `address`, so it is rejected
as a syntax error with no mutation. -/
theorem claim10_witness :
    alterTable (str "ALTER TABLE t DROP address") [[str "a"], [str "x"]] = .errBoth := by
  have h := (claim10_alter_substring_dispatch (str "ALTER TABLE t DROP address")
    [str "a"] [[str "x"]] 19 14 (by decide)).1
  exact h (by decide) (by decide)

/-- Claim C8 (witness for the amended theorem at a concrete input). -/
theorem claim8_amended_witness :
    alterAdd (str "c") [str "a"] [[str "x"]] =
      .altered (([str "a"] ++ [str "c"]) :: [[str "x"]].map (fun r => r ++ [[]])) ∧
    alterDrop (str "c") ([str "a"] ++ [str "c"]) ([[str "x"]].map (fun r => r ++ [[]])) =
      .altered [[str "a"], [str "x"]] :=
  claim8_amended_roundtrip [str "a"] [[str "x"]] (str "c")
    (by decide) (by decide) (by decide)

end MiniSQL
